import Mathlib

/-!
Verification of `fairscale/experimental/nn/distributed_pipeline/trace.py`.

The file embeds `GraphCreator.create_graph` and `_call_trace` shallowly:

* A trace node is identified by its position in the trace (`torch.fx` node
  objects are pairwise distinct, so position is a faithful object identity);
  `args` entries are positions of other nodes.
* The Python dictionaries `node_to_data`, `node_to_module` and
  `module_to_num_outputs` become association lists with Python-dict update
  semantics (update in place when the key is present, append otherwise; for
  the first two the keys are trace positions, which are always fresh, so the
  insertions are plain appends).
* Uncaught Python exceptions (failed `assert`s, `ValueError` from
  `list.index`, `KeyError` / failed membership asserts on `node_to_data`,
  `AttributeError` from the `getattr` walk) become `Except` errors, named by
  the specification's error taxonomy.
* The debug printing in `create_graph` and `make_graph` is diagnostic only
  and is not modelled.
-/

namespace DistributedPipeline

/-- Identity of a submodule of the traced model; the Python dictionaries key
modules by object identity, which we model as a natural number. -/
abbrev Module := Nat

/-- Modelled from the spec: `PipelineModulesGraph.DataSourceSpec` is declared in
a file of this repository that is not under `src/`; per the spec it is either an
external input index (a plain `int` in the Python code), the whole output of a
module (a `RemoteModule` value), or one element of a module's output (a
`Tuple[RemoteModule, int]` value). -/
inductive DataSourceSpec where
  | externalInput (i : Nat)
  | wholeModuleOutput (m : Module)
  | indexedModuleOutput (m : Module) (index : Nat)
deriving DecidableEq, Repr

/-- One node of the `torch.fx` trace, following the dispatch in
`GraphCreator.create_graph`: `call_module` nodes, `call_function` nodes whose
target is `operator.__getitem__` (constructor `getitem`, whose two `args` are a
node position and the selection index), `placeholder` nodes, the `output` node,
and every other node kind (constructor `unsupported`, which the code answers
with `assert False`). -/
inductive Node where
  | placeholder (target : String)
  | call_module (target : String) (args : List Nat)
  | getitem (arg : Nat) (index : Nat)
  | output (args : List Nat)
  | unsupported (op : String)
deriving DecidableEq, Repr

/-- The ambient module hierarchy of the traced model: `get_module` models
`GraphCreator.get_module`'s `getattr` walk over the dotted target path (`none`
models an `AttributeError`), and `isRemoteModule` models
`isinstance(m, RemoteModule)`. -/
structure Env where
  get_module : String → Option Module
  isRemoteModule : Module → Bool

/-- Structural failures of the transformation, named by the specification's
error taxonomy. Each corresponds to an uncaught exception in `create_graph`:
`unknownInput` is the `ValueError` raised by `arg_names.index`;
`moduleResolutionFailed` the `AttributeError` of the `getattr` walk;
`notARemoteModule` the failed `isinstance` assert on a `call_module` node;
`selectionOnNonModule` the failed `isinstance(d, RemoteModule)` assert on a
`getitem` node; `missingArg` a failed `node_to_data` membership assert or a
`KeyError` on `node_to_data`; `unsupportedOperation` the final `assert False`;
`mixedOutputAccess` either of the two asserts in the arity-inference loop. -/
inductive GraphError where
  | unknownInput
  | moduleResolutionFailed
  | notARemoteModule
  | selectionOnNonModule
  | missingArg
  | unsupportedOperation
  | mixedOutputAccess
deriving DecidableEq, Repr

/-- Python `d[k]` lookup on an association list (`none` models `KeyError`;
`(dictGet k d).isSome` models `k in d`). -/
def dictGet {α : Type} (k : Nat) : List (Nat × α) → Option α
  | [] => none
  | (k1, v) :: rest => if k = k1 then some v else dictGet k rest

/-- Python `d[k] = v` on an association list: update in place when the key is
present, append otherwise (insertion order is preserved, as for a Python
dict). -/
def dictInsert {α : Type} (k : Nat) (v : α) : List (Nat × α) → List (Nat × α)
  | [] => [(k, v)]
  | (k1, v1) :: rest => if k = k1 then (k, v) :: rest else (k1, v1) :: dictInsert k v rest

/-- Python `arg_names.index(target)`: position of the first occurrence, `none`
models the `ValueError` raised when the name is absent. -/
def listIndex (target : String) : List String → Option Nat
  | [] => none
  | a :: rest => if a = target then some 0 else (listIndex target rest).map (· + 1)

/-- State of the first loop of `create_graph`: `node_to_data` and
`node_to_module` are the two dictionaries (keyed by trace position;
`node_to_module` also stores the node's `args`, which the later loops read from
the node object), and `pos` is the position of the next trace node. -/
structure ResolveState where
  node_to_data : List (Nat × DataSourceSpec)
  node_to_module : List (Nat × List Nat × Module)
  pos : Nat
deriving DecidableEq, Repr

/-- One iteration of the first loop of `create_graph` (data-source
resolution), dispatching on the node kind exactly as the Python `if` chain
does. -/
def resolveNode (env : Env) (arg_names : List String) (st : ResolveState) :
    Node → Except GraphError ResolveState
  | .call_module target args =>
    match env.get_module target with
    | none => .error .moduleResolutionFailed
    | some m =>
      if env.isRemoteModule m then
        .ok { node_to_data := st.node_to_data ++ [(st.pos, .wholeModuleOutput m)],
              node_to_module := st.node_to_module ++ [(st.pos, args, m)],
              pos := st.pos + 1 }
      else
        .error .notARemoteModule
  | .getitem arg index =>
    match dictGet arg st.node_to_data with
    | none => .error .missingArg
    | some (.wholeModuleOutput m) =>
      .ok { st with
            node_to_data := st.node_to_data ++ [(st.pos, .indexedModuleOutput m index)],
            pos := st.pos + 1 }
    | some _ => .error .selectionOnNonModule
  | .placeholder target =>
    match listIndex target arg_names with
    | none => .error .unknownInput
    | some i =>
      .ok { st with
            node_to_data := st.node_to_data ++ [(st.pos, .externalInput i)],
            pos := st.pos + 1 }
  | .output _ => .ok { st with pos := st.pos + 1 }
  | .unsupported _ => .error .unsupportedOperation

/-- The first loop of `create_graph`, over the trace nodes in order. -/
def resolve_loop (env : Env) (arg_names : List String) (st : ResolveState) :
    List Node → Except GraphError ResolveState
  | [] => .ok st
  | n :: rest =>
    match resolveNode env arg_names st n with
    | .error e => .error e
    | .ok st1 => resolve_loop env arg_names st1 rest

/-- The data-source resolution pass: the first loop started on empty
dictionaries at position `0`. -/
def resolvePass (env : Env) (arg_names : List String) (trace : List Node) :
    Except GraphError ResolveState :=
  resolve_loop env arg_names ⟨[], [], 0⟩ trace

/-- Body of the arity-inference loop for one already-resolved argument value
`data`, updating `module_to_num_outputs`: external inputs are skipped; a whole
use asserts the recorded arity is not a count and records `none`; an indexed
use asserts the recorded arity is not `none` and records
`max prev (index + 1)` (or `index + 1` when the module is new). -/
def arity_update (acc : List (Module × Option Nat)) :
    DataSourceSpec → Except GraphError (List (Module × Option Nat))
  | .externalInput _ => .ok acc
  | .wholeModuleOutput m =>
    match dictGet m acc with
    | some (some _) => .error .mixedOutputAccess
    | _ => .ok (dictInsert m none acc)
  | .indexedModuleOutput m index =>
    match dictGet m acc with
    | none => .ok (dictInsert m (some (index + 1)) acc)
    | some none => .error .mixedOutputAccess
    | some (some prev) => .ok (dictInsert m (some (max prev (index + 1))) acc)

/-- Inner arity-inference loop: `for arg in node.args`, looking each argument
up in `node_to_data` (a missing key models the `KeyError`). -/
def arity_args_loop (d : List (Nat × DataSourceSpec)) (acc : List (Module × Option Nat)) :
    List Nat → Except GraphError (List (Module × Option Nat))
  | [] => .ok acc
  | a :: rest =>
    match dictGet a d with
    | none => .error .missingArg
    | some data =>
      match arity_update acc data with
      | .error e => .error e
      | .ok acc1 => arity_args_loop d acc1 rest

/-- Outer arity-inference loop: `for node in node_to_module.keys()`, in
insertion order. -/
def arity_loop (d : List (Nat × DataSourceSpec)) (acc : List (Module × Option Nat)) :
    List (Nat × List Nat × Module) → Except GraphError (List (Module × Option Nat))
  | [] => .ok acc
  | e :: rest =>
    match arity_args_loop d acc e.2.1 with
    | .error er => .error er
    | .ok acc1 => arity_loop d acc1 rest

/-- The output-arity inference pass: both loops, started on an empty
`module_to_num_outputs`. -/
def arityPass (d : List (Nat × DataSourceSpec)) (ntm : List (Nat × List Nat × Module)) :
    Except GraphError (List (Module × Option Nat)) :=
  arity_loop d [] ntm

/-- Modelled from the spec: one layer of the produced `PipelineModulesGraph`
(`add_layer` is declared in a file of this repository that is not under
`src/`): the graph is the ordered collection of layers, one per `add_layer`
call, each holding the module identity, the resolved data sources of its
arguments, and the inferred output arity (`none` meaning a single,
never-indexed output). -/
structure Layer where
  module : Module
  inputs : List DataSourceSpec
  num_outputs : Option Nat
deriving DecidableEq, Repr

/-- Modelled from the spec: `PipelineModulesGraph.add_layer` appends one layer
to the ordered collection of layers. -/
def add_layer (graph : List Layer) (module : Module) (inputs : List DataSourceSpec)
    (num_outputs : Option Nat) : List Layer :=
  graph ++ [{ module := module, inputs := inputs, num_outputs := num_outputs }]

/-- The list comprehension `[node_to_data[arg] for arg in node.args]` (a
missing key models the `KeyError`). -/
def resolve_args (d : List (Nat × DataSourceSpec)) :
    List Nat → Except GraphError (List DataSourceSpec)
  | [] => .ok []
  | a :: rest =>
    match dictGet a d with
    | none => .error .missingArg
    | some data =>
      match resolve_args d rest with
      | .error e => .error e
      | .ok datas => .ok (data :: datas)

/-- Assembly loop: `for node, module in node_to_module.items()`, emitting one
layer per entry with arity `module_to_num_outputs.get(module)` (absent keys
and stored `None` both yield `none`). -/
def assemble_loop (d : List (Nat × DataSourceSpec)) (arity : List (Module × Option Nat))
    (graph : List Layer) :
    List (Nat × List Nat × Module) → Except GraphError (List Layer)
  | [] => .ok graph
  | e :: rest =>
    match resolve_args d e.2.1 with
    | .error er => .error er
    | .ok inputs =>
      assemble_loop d arity (add_layer graph e.2.2 inputs ((dictGet e.2.2 arity).getD none)) rest

/-- `GraphCreator.create_graph`: the three passes in sequence; any uncaught
exception aborts the whole transformation and no graph is returned. -/
def create_graph (env : Env) (arg_names : List String) (trace : List Node) :
    Except GraphError (List Layer) :=
  match resolvePass env arg_names trace with
  | .error e => .error e
  | .ok st =>
    match arityPass st.node_to_data st.node_to_module with
    | .error e => .error e
    | .ok arity => assemble_loop st.node_to_data arity [] st.node_to_module

/-- The class attributes `named_modules` and `named_children` that
`_call_trace` temporarily overrides on `RemoteModule`; their values are opaque
to this component. -/
structure ModuleIntrospection (α : Type) where
  named_modules : α
  named_children : α
deriving DecidableEq, Repr

/-- `_call_trace`: saves the two `RemoteModule` introspection attributes,
installs the plain `nn.Module` ones, runs the trace (which may fail), and in a
`finally` block restores the saved attributes. The pair returned is the trace
result together with the `RemoteModule` attributes as they stand after the
call. -/
def _call_trace {α β ε : Type} (nn_module_methods : ModuleIntrospection α)
    (remote_module_methods : ModuleIntrospection α)
    (tracer_trace : ModuleIntrospection α → Except ε β) :
    Except ε β × ModuleIntrospection α :=
  let org_named_modules := remote_module_methods.named_modules
  let org_named_children := remote_module_methods.named_children
  let patched : ModuleIntrospection α :=
    { named_modules := nn_module_methods.named_modules,
      named_children := nn_module_methods.named_children }
  let result := tracer_trace patched
  (result, { named_modules := org_named_modules, named_children := org_named_children })

/-- Does this trace node take the `call_module` branch of the dispatch? -/
def Node.isModuleCall : Node → Bool
  | .call_module _ _ => true
  | _ => false

/-- Does this trace node take the `getitem` branch of the dispatch (the
specification's `SelectElement` kind)? -/
def Node.isGetitem : Node → Bool
  | .getitem _ _ => true
  | _ => false

/-- Is this data source an indexed module output? -/
def DataSourceSpec.isIndexed : DataSourceSpec → Bool
  | .indexedModuleOutput _ _ => true
  | _ => false

/-- Does this data source reference module `m`'s result, whole or indexed? -/
def DataSourceSpec.isFrom (m : Module) : DataSourceSpec → Bool
  | .wholeModuleOutput m1 => m1 = m
  | .indexedModuleOutput m1 _ => m1 = m
  | .externalInput _ => false

/-- All argument positions of all recorded `call_module` nodes, in the order
the arity-inference loop visits them. -/
def callArgs : List (Nat × List Nat × Module) → List Nat
  | [] => []
  | e :: rest => e.2.1 ++ callArgs rest

/-- The modules named (and resolvable) by the `call_module` nodes of a trace,
in trace order. -/
def callModules (env : Env) : List Node → List Module
  | [] => []
  | .call_module t _ :: rest =>
    match env.get_module t with
    | some m => m :: callModules env rest
    | none => callModules env rest
  | _ :: rest => callModules env rest

/-- The arity-inference loop re-expressed over the already-resolved argument
values; `arity_args_loop` agrees with it once every lookup succeeds. -/
def arity_data_loop (acc : List (Module × Option Nat)) :
    List DataSourceSpec → Except GraphError (List (Module × Option Nat))
  | [] => .ok acc
  | u :: rest =>
    match arity_update acc u with
    | .error e => .error e
    | .ok acc1 => arity_data_loop acc1 rest

/-- The selection indices applied to module `m`'s result among a list of
resolved argument values, in order. -/
def selIdxs (m : Module) : List DataSourceSpec → List Nat
  | [] => []
  | .indexedModuleOutput m1 i :: rest => if m1 = m then i :: selIdxs m rest else selIdxs m rest
  | _ :: rest => selIdxs m rest

/-- Maximum of a list of naturals (`0` on the empty list). -/
def listMax : List Nat → Nat
  | [] => 0
  | i :: rest => max i (listMax rest)

/-- Maximum of the successors of a list of naturals (`0` on the empty list). -/
def listMaxSucc : List Nat → Nat
  | [] => 0
  | i :: rest => max (i + 1) (listMaxSucc rest)

/-- The running-count state machine of the arity-inference loop for one module,
over the selection indices applied to it: `none` means no selection seen yet,
`some c` is the running count. -/
def arityOfIdxs : Option Nat → List Nat → Option Nat
  | cur, [] => cur
  | none, i :: rest => arityOfIdxs (some (i + 1)) rest
  | some p, i :: rest => arityOfIdxs (some (max p (i + 1))) rest

/-- A concrete module hierarchy with three remote modules `A`, `B`, `C`. -/
def envAB : Env :=
  { get_module := fun t =>
      if t = "A" then some 0 else if t = "B" then some 1 else if t = "C" then some 2 else none,
    isRemoteModule := fun _ => true }

/-- The worked example of the specification: `A` is called on the external
input, its result is selected at indices 0 and 1, and `B` consumes the two
selections. -/
def traceEx : List Node :=
  [.placeholder "x", .call_module "A" [0], .getitem 1 0, .getitem 1 1,
   .call_module "B" [2, 3], .output [4]]

/-- A trace in which `A`'s result is passed whole to `B` and index-selected
for `C`: the whole use is processed first by the arity pass. -/
def traceMixed : List Node :=
  [.placeholder "x", .call_module "A" [0], .getitem 1 0,
   .call_module "B" [1], .call_module "C" [2], .output [4]]

/-- The same structural mixing with the two consuming calls swapped: the
indexed use is processed first by the arity pass. -/
def traceMixed2 : List Node :=
  [.placeholder "x", .call_module "A" [0], .getitem 1 0,
   .call_module "C" [2], .call_module "B" [1], .output [4]]

/-- A trace in which `A`'s result is selected once but the selection feeds only
the final output node. -/
def traceSelOnly : List Node :=
  [.placeholder "x", .call_module "A" [0], .getitem 1 0, .output [2]]

/-- A trace with no selection nodes at all. -/
def traceNoSel : List Node :=
  [.placeholder "x", .call_module "A" [0], .call_module "B" [1], .output [2]]

/-- A trace in which `A`'s result is selected at indices 0 and 2 (index 1 is
skipped). -/
def traceGap : List Node :=
  [.placeholder "x", .call_module "A" [0], .getitem 1 0, .getitem 1 2,
   .call_module "B" [2, 3], .output [4]]

theorem dictGet_dictInsert_self {α : Type} (k : Nat) (v : α) (l : List (Nat × α)) :
    dictGet k (dictInsert k v l) = some v := by
  induction l with
  | nil => simp [dictInsert, dictGet]
  | cons p rest ih =>
    obtain ⟨k1, v1⟩ := p
    by_cases h : k = k1 <;> simp [dictInsert, dictGet, h, ih]

theorem dictGet_dictInsert_ne {α : Type} (k k1 : Nat) (v : α) (l : List (Nat × α))
    (h : k ≠ k1) : dictGet k (dictInsert k1 v l) = dictGet k l := by
  induction l with
  | nil => simp [dictInsert, dictGet, h]
  | cons q rest ih =>
    obtain ⟨k2, v2⟩ := q
    by_cases hk : k1 = k2
    · subst hk
      simp [dictInsert, dictGet, h]
    · by_cases hk2 : k = k2 <;> simp [dictInsert, dictGet, hk, hk2, ih]

theorem dictGet_mem {α : Type} (k : Nat) (v : α) (l : List (Nat × α))
    (h : dictGet k l = some v) : (k, v) ∈ l := by
  induction l with
  | nil => simp [dictGet] at h
  | cons p rest ih =>
    obtain ⟨k1, v1⟩ := p
    by_cases hk : k = k1
    · subst hk
      simp [dictGet] at h
      subst h
      exact List.mem_cons_self _ _
    · simp [dictGet, hk] at h
      exact List.mem_cons_of_mem _ (ih h)

theorem mem_dictInsert {α : Type} (k : Nat) (v : α) (l : List (Nat × α)) (p : Nat × α)
    (h : p ∈ dictInsert k v l) : p.2 = v ∨ p ∈ l := by
  induction l with
  | nil =>
    simp [dictInsert] at h
    simp [h]
  | cons q rest ih =>
    obtain ⟨k1, v1⟩ := q
    by_cases hk : k = k1
    · simp [dictInsert, hk] at h
      rcases h with h | h
      · left
        simp [h]
      · right
        exact List.mem_cons_of_mem _ h
    · simp [dictInsert, hk] at h
      rcases h with h | h
      · right
        simp [h]
      · rcases ih h with h1 | h1
        · left
          exact h1
        · right
          exact List.mem_cons_of_mem _ h1

theorem listIndex_eq_some (name : String) (l : List String) (i : Nat)
    (h1 : l.get? i = some name) (h2 : ∀ j, j < i → l.get? j ≠ some name) :
    listIndex name l = some i := by
  induction l generalizing i with
  | nil => simp at h1
  | cons a rest ih =>
    by_cases ha : a = name
    · cases i with
      | zero => simp [listIndex, ha]
      | succ k =>
        exact absurd (by simp [ha]) (h2 0 (Nat.succ_pos k))
    · cases i with
      | zero =>
        simp at h1
        exact absurd h1 ha
      | succ k =>
        have h1a : rest.get? k = some name := by simpa using h1
        have h2a : ∀ j, j < k → rest.get? j ≠ some name := by
          intro j hj
          have := h2 (j + 1) (by omega)
          simpa using this
        simp [listIndex, ha, ih k h1a h2a]

theorem listIndex_eq_none (name : String) (l : List String) (h : name ∉ l) :
    listIndex name l = none := by
  induction l with
  | nil => rfl
  | cons a rest ih =>
    simp at h
    simp [listIndex, Ne.symm h.1, ih h.2]

theorem arity_update_external (acc : List (Module × Option Nat)) (i : Nat) :
    arity_update acc (.externalInput i) = .ok acc := rfl

theorem arity_update_whole_absent (acc : List (Module × Option Nat)) (m : Module)
    (h : dictGet m acc = none) :
    arity_update acc (.wholeModuleOutput m) = .ok (dictInsert m none acc) := by
  simp only [arity_update, h]

theorem arity_update_whole_none (acc : List (Module × Option Nat)) (m : Module)
    (h : dictGet m acc = some none) :
    arity_update acc (.wholeModuleOutput m) = .ok (dictInsert m none acc) := by
  simp only [arity_update, h]

theorem arity_update_whole_count (acc : List (Module × Option Nat)) (m : Module) (n : Nat)
    (h : dictGet m acc = some (some n)) :
    arity_update acc (.wholeModuleOutput m) = .error .mixedOutputAccess := by
  simp only [arity_update, h]

theorem arity_update_indexed_new (acc : List (Module × Option Nat)) (m : Module) (i : Nat)
    (h : dictGet m acc = none) :
    arity_update acc (.indexedModuleOutput m i) = .ok (dictInsert m (some (i + 1)) acc) := by
  simp only [arity_update, h]

theorem arity_update_indexed_single (acc : List (Module × Option Nat)) (m : Module) (i : Nat)
    (h : dictGet m acc = some none) :
    arity_update acc (.indexedModuleOutput m i) = .error .mixedOutputAccess := by
  simp only [arity_update, h]

theorem arity_update_indexed_prev (acc : List (Module × Option Nat)) (m : Module) (i prev : Nat)
    (h : dictGet m acc = some (some prev)) :
    arity_update acc (.indexedModuleOutput m i) =
      .ok (dictInsert m (some (max prev (i + 1))) acc) := by
  simp only [arity_update, h]

theorem arity_update_whole_ok (acc acc1 : List (Module × Option Nat)) (m : Module)
    (h : arity_update acc (.wholeModuleOutput m) = .ok acc1) :
    acc1 = dictInsert m none acc := by
  cases hm : dictGet m acc with
  | none =>
    rw [arity_update_whole_absent acc m hm] at h
    exact (Except.ok.inj h).symm
  | some p =>
    cases p with
    | none =>
      rw [arity_update_whole_none acc m hm] at h
      exact (Except.ok.inj h).symm
    | some n =>
      rw [arity_update_whole_count acc m n hm] at h
      exact absurd h (by simp)

theorem arity_update_indexed_ok (acc acc1 : List (Module × Option Nat)) (m : Module) (i : Nat)
    (h : arity_update acc (.indexedModuleOutput m i) = .ok acc1) :
    ∃ k, acc1 = dictInsert m (some k) acc := by
  cases hm : dictGet m acc with
  | none =>
    rw [arity_update_indexed_new acc m i hm] at h
    exact ⟨i + 1, (Except.ok.inj h).symm⟩
  | some p =>
    cases p with
    | none =>
      rw [arity_update_indexed_single acc m i hm] at h
      exact absurd h (by simp)
    | some prev =>
      rw [arity_update_indexed_prev acc m i prev hm] at h
      exact ⟨max prev (i + 1), (Except.ok.inj h).symm⟩

theorem arity_update_error (acc : List (Module × Option Nat)) (u : DataSourceSpec)
    (e : GraphError) (h : arity_update acc u = .error e) : e = .mixedOutputAccess := by
  cases u with
  | externalInput i => simp [arity_update_external] at h
  | wholeModuleOutput m =>
    cases hm : dictGet m acc with
    | none => rw [arity_update_whole_absent acc m hm] at h; simp at h
    | some p =>
      cases p with
      | none => rw [arity_update_whole_none acc m hm] at h; simp at h
      | some n =>
        rw [arity_update_whole_count acc m n hm] at h
        exact (Except.error.inj h).symm
  | indexedModuleOutput m i =>
    cases hm : dictGet m acc with
    | none => rw [arity_update_indexed_new acc m i hm] at h; simp at h
    | some p =>
      cases p with
      | none =>
        rw [arity_update_indexed_single acc m i hm] at h
        exact (Except.error.inj h).symm
      | some prev => rw [arity_update_indexed_prev acc m i prev hm] at h; simp at h

theorem arity_update_keeps_single (acc acc1 : List (Module × Option Nat)) (u : DataSourceSpec)
    (m : Module) (h : arity_update acc u = .ok acc1) (hm : dictGet m acc = some none) :
    dictGet m acc1 = some none := by
  cases u with
  | externalInput i =>
    rw [arity_update_external] at h
    rw [← Except.ok.inj h]
    exact hm
  | wholeModuleOutput m1 =>
    rw [arity_update_whole_ok acc acc1 m1 h]
    by_cases hmm : m = m1
    · subst hmm
      exact dictGet_dictInsert_self m none acc
    · rw [dictGet_dictInsert_ne m m1 none acc hmm]
      exact hm
  | indexedModuleOutput m1 i =>
    by_cases hmm : m = m1
    · subst hmm
      rw [arity_update_indexed_single acc m i hm] at h
      exact absurd h (by simp)
    · obtain ⟨k, hk⟩ := arity_update_indexed_ok acc acc1 m1 i h
      rw [hk, dictGet_dictInsert_ne m m1 (some k) acc hmm]
      exact hm

theorem arity_update_keeps_count (acc acc1 : List (Module × Option Nat)) (u : DataSourceSpec)
    (m : Module) (n : Nat) (h : arity_update acc u = .ok acc1)
    (hm : dictGet m acc = some (some n)) :
    ∃ n1, dictGet m acc1 = some (some n1) := by
  cases u with
  | externalInput i =>
    rw [arity_update_external] at h
    rw [← Except.ok.inj h]
    exact ⟨n, hm⟩
  | wholeModuleOutput m1 =>
    by_cases hmm : m = m1
    · subst hmm
      rw [arity_update_whole_count acc m n hm] at h
      exact absurd h (by simp)
    · rw [arity_update_whole_ok acc acc1 m1 h, dictGet_dictInsert_ne m m1 none acc hmm]
      exact ⟨n, hm⟩
  | indexedModuleOutput m1 i =>
    obtain ⟨k, hk⟩ := arity_update_indexed_ok acc acc1 m1 i h
    by_cases hmm : m = m1
    · subst hmm
      rw [hk]
      exact ⟨k, dictGet_dictInsert_self m (some k) acc⟩
    · rw [hk, dictGet_dictInsert_ne m m1 (some k) acc hmm]
      exact ⟨n, hm⟩

theorem arity_update_not_from (acc acc1 : List (Module × Option Nat)) (u : DataSourceSpec)
    (m : Module) (h : arity_update acc u = .ok acc1) (hu : u.isFrom m = false) :
    dictGet m acc1 = dictGet m acc := by
  cases u with
  | externalInput i =>
    rw [arity_update_external] at h
    rw [← Except.ok.inj h]
  | wholeModuleOutput m1 =>
    have hmm : m ≠ m1 := by
      intro hc
      subst hc
      simp [DataSourceSpec.isFrom] at hu
    rw [arity_update_whole_ok acc acc1 m1 h, dictGet_dictInsert_ne m m1 none acc hmm]
  | indexedModuleOutput m1 i =>
    have hmm : m ≠ m1 := by
      intro hc
      subst hc
      simp [DataSourceSpec.isFrom] at hu
    obtain ⟨k, hk⟩ := arity_update_indexed_ok acc acc1 m1 i h
    rw [hk, dictGet_dictInsert_ne m m1 (some k) acc hmm]

theorem arity_data_loop_error (uses : List DataSourceSpec) :
    ∀ acc e, arity_data_loop acc uses = .error e → e = .mixedOutputAccess := by
  induction uses with
  | nil =>
    intro acc e h
    simp [arity_data_loop] at h
  | cons u rest ih =>
    intro acc e h
    unfold arity_data_loop at h
    cases hu : arity_update acc u with
    | error e1 =>
      rw [hu] at h
      simp at h
      rw [← h]
      exact arity_update_error acc u e1 hu
    | ok acc1 =>
      rw [hu] at h
      exact ih acc1 e h

theorem arity_data_loop_keeps_single (uses : List DataSourceSpec) :
    ∀ acc final m, arity_data_loop acc uses = .ok final → dictGet m acc = some none →
    dictGet m final = some none := by
  induction uses with
  | nil =>
    intro acc final m h hm
    simp [arity_data_loop] at h
    rw [← h]
    exact hm
  | cons u rest ih =>
    intro acc final m h hm
    unfold arity_data_loop at h
    cases hu : arity_update acc u with
    | error e1 =>
      rw [hu] at h
      simp at h
    | ok acc1 =>
      rw [hu] at h
      exact ih acc1 final m h (arity_update_keeps_single acc acc1 u m hu hm)

theorem arity_data_loop_keeps_count (uses : List DataSourceSpec) :
    ∀ acc final m n, arity_data_loop acc uses = .ok final →
    dictGet m acc = some (some n) → ∃ n1, dictGet m final = some (some n1) := by
  induction uses with
  | nil =>
    intro acc final m n h hm
    simp [arity_data_loop] at h
    rw [← h]
    exact ⟨n, hm⟩
  | cons u rest ih =>
    intro acc final m n h hm
    unfold arity_data_loop at h
    cases hu : arity_update acc u with
    | error e1 =>
      rw [hu] at h
      simp at h
    | ok acc1 =>
      rw [hu] at h
      obtain ⟨n1, hn1⟩ := arity_update_keeps_count acc acc1 u m n hu hm
      exact ih acc1 final m n1 h hn1

theorem arity_data_loop_whole_mem (uses : List DataSourceSpec) :
    ∀ acc final m, arity_data_loop acc uses = .ok final →
    DataSourceSpec.wholeModuleOutput m ∈ uses → dictGet m final = some none := by
  induction uses with
  | nil =>
    intro acc final m _ hm
    simp at hm
  | cons u rest ih =>
    intro acc final m h hm
    unfold arity_data_loop at h
    cases hu : arity_update acc u with
    | error e1 =>
      rw [hu] at h
      simp at h
    | ok acc1 =>
      rw [hu] at h
      rcases List.mem_cons.mp hm with hm1 | hm1
      · subst hm1
        have h1 : dictGet m acc1 = some none := by
          rw [arity_update_whole_ok acc acc1 m hu]
          exact dictGet_dictInsert_self m none acc
        exact arity_data_loop_keeps_single rest acc1 final m h h1
      · exact ih acc1 final m h hm1

theorem arity_data_loop_indexed_mem (uses : List DataSourceSpec) :
    ∀ acc final m i, arity_data_loop acc uses = .ok final →
    DataSourceSpec.indexedModuleOutput m i ∈ uses →
    ∃ n, dictGet m final = some (some n) := by
  induction uses with
  | nil =>
    intro acc final m i _ hm
    simp at hm
  | cons u rest ih =>
    intro acc final m i h hm
    unfold arity_data_loop at h
    cases hu : arity_update acc u with
    | error e1 =>
      rw [hu] at h
      simp at h
    | ok acc1 =>
      rw [hu] at h
      rcases List.mem_cons.mp hm with hm1 | hm1
      · subst hm1
        obtain ⟨k, hk⟩ := arity_update_indexed_ok acc acc1 m i hu
        have h1 : dictGet m acc1 = some (some k) := by
          rw [hk]
          exact dictGet_dictInsert_self m (some k) acc
        exact arity_data_loop_keeps_count rest acc1 final m k h h1
      · exact ih acc1 final m i h hm1

theorem arity_data_loop_mixed (uses : List DataSourceSpec) (acc : List (Module × Option Nat))
    (m : Module) (i : Nat) (hw : DataSourceSpec.wholeModuleOutput m ∈ uses)
    (hi : DataSourceSpec.indexedModuleOutput m i ∈ uses) :
    arity_data_loop acc uses = .error .mixedOutputAccess := by
  cases h : arity_data_loop acc uses with
  | ok final =>
    have h1 := arity_data_loop_whole_mem uses acc final m h hw
    obtain ⟨n, h2⟩ := arity_data_loop_indexed_mem uses acc final m i h hi
    rw [h1] at h2
    simp at h2
  | error e =>
    rw [arity_data_loop_error uses acc e h]

theorem arity_data_loop_not_from (uses : List DataSourceSpec) :
    ∀ acc final m, arity_data_loop acc uses = .ok final →
    (∀ u ∈ uses, u.isFrom m = false) → dictGet m final = dictGet m acc := by
  induction uses with
  | nil =>
    intro acc final m h _
    simp [arity_data_loop] at h
    rw [h]
  | cons u rest ih =>
    intro acc final m h hm
    unfold arity_data_loop at h
    cases hu : arity_update acc u with
    | error e1 =>
      rw [hu] at h
      simp at h
    | ok acc1 =>
      rw [hu] at h
      have h1 := arity_update_not_from acc acc1 u m hu (hm u (List.mem_cons_self u rest))
      rw [ih acc1 final m h fun v hv => hm v (List.mem_cons_of_mem u hv), h1]

theorem arityOfIdxs_some (l : List Nat) : ∀ p, arityOfIdxs (some p) l = some (max p (listMaxSucc l)) := by
  induction l with
  | nil =>
    intro p
    simp [arityOfIdxs, listMaxSucc]
  | cons i rest ih =>
    intro p
    simp only [arityOfIdxs, listMaxSucc]
    rw [ih]
    congr 1
    omega

theorem listMax_succ (l : List Nat) : listMax l + 1 = max (listMaxSucc l) 1 := by
  induction l with
  | nil => simp [listMax, listMaxSucc]
  | cons i rest ih =>
    simp only [listMax, listMaxSucc]
    omega

theorem arityOfIdxs_none_of_ne (l : List Nat) (h : l ≠ []) :
    arityOfIdxs none l = some (listMax l + 1) := by
  cases l with
  | nil => exact absurd rfl h
  | cons i rest =>
    have h1 : arityOfIdxs none (i :: rest) = arityOfIdxs (some (i + 1)) rest := rfl
    rw [h1, arityOfIdxs_some]
    have h2 := listMax_succ rest
    simp only [listMax]
    congr 1
    omega

theorem arity_data_loop_counts (uses : List DataSourceSpec) :
    ∀ acc final m cur, arity_data_loop acc uses = .ok final →
    DataSourceSpec.wholeModuleOutput m ∉ uses →
    dictGet m acc = Option.map some cur →
    dictGet m final = Option.map some (arityOfIdxs cur (selIdxs m uses)) := by
  induction uses with
  | nil =>
    intro acc final m cur h _ hc
    simp [arity_data_loop] at h
    rw [← h]
    simpa [selIdxs, arityOfIdxs] using hc
  | cons u rest ih =>
    intro acc final m cur h hw hc
    have hw1 : DataSourceSpec.wholeModuleOutput m ∉ rest := fun hr => hw (List.mem_cons_of_mem u hr)
    unfold arity_data_loop at h
    cases hu : arity_update acc u with
    | error e1 =>
      rw [hu] at h
      simp at h
    | ok acc1 =>
      rw [hu] at h
      cases u with
      | externalInput j =>
        rw [arity_update_external] at hu
        rw [show selIdxs m (DataSourceSpec.externalInput j :: rest) = selIdxs m rest from rfl]
        exact ih acc1 final m cur h hw1 ((Except.ok.inj hu) ▸ hc)
      | wholeModuleOutput m1 =>
        have hmm : m ≠ m1 := by
          intro hcon
          subst hcon
          exact hw (List.mem_cons_self _ _)
        have ha : dictGet m acc1 = Option.map some cur := by
          rw [arity_update_whole_ok acc acc1 m1 hu, dictGet_dictInsert_ne m m1 none acc hmm]
          exact hc
        rw [show selIdxs m (DataSourceSpec.wholeModuleOutput m1 :: rest) = selIdxs m rest from rfl]
        exact ih acc1 final m cur h hw1 ha
      | indexedModuleOutput m1 j =>
        by_cases hmm : m1 = m
        · subst hmm
          have hsel : selIdxs m1 (DataSourceSpec.indexedModuleOutput m1 j :: rest) =
              j :: selIdxs m1 rest := by
            simp [selIdxs]
          rw [hsel]
          cases cur with
          | none =>
            simp at hc
            rw [arity_update_indexed_new acc m1 j hc] at hu
            have ha : dictGet m1 acc1 = Option.map some (some (j + 1)) := by
              rw [← Except.ok.inj hu]
              exact dictGet_dictInsert_self m1 (some (j + 1)) acc
            have hstep : arityOfIdxs none (j :: selIdxs m1 rest) =
                arityOfIdxs (some (j + 1)) (selIdxs m1 rest) := rfl
            rw [hstep]
            exact ih acc1 final m1 (some (j + 1)) h hw1 ha
          | some p =>
            simp at hc
            rw [arity_update_indexed_prev acc m1 j p hc] at hu
            have ha : dictGet m1 acc1 = Option.map some (some (max p (j + 1))) := by
              rw [← Except.ok.inj hu]
              exact dictGet_dictInsert_self m1 (some (max p (j + 1))) acc
            have hstep : arityOfIdxs (some p) (j :: selIdxs m1 rest) =
                arityOfIdxs (some (max p (j + 1))) (selIdxs m1 rest) := rfl
            rw [hstep]
            exact ih acc1 final m1 (some (max p (j + 1))) h hw1 ha
        · have hsel : selIdxs m (DataSourceSpec.indexedModuleOutput m1 j :: rest) =
              selIdxs m rest := by
            simp [selIdxs, hmm]
          obtain ⟨k, hk⟩ := arity_update_indexed_ok acc acc1 m1 j hu
          have ha : dictGet m acc1 = Option.map some cur := by
            rw [hk, dictGet_dictInsert_ne m m1 (some k) acc (fun hcon => hmm hcon.symm)]
            exact hc
          rw [hsel]
          exact ih acc1 final m cur h hw1 ha

theorem arity_args_loop_eq_data (d : List (Nat × DataSourceSpec)) (args : List Nat) :
    ∀ acc uses, resolve_args d args = .ok uses →
    arity_args_loop d acc args = arity_data_loop acc uses := by
  induction args with
  | nil =>
    intro acc uses h
    simp [resolve_args] at h
    subst h
    rfl
  | cons a rest ih =>
    intro acc uses h
    unfold resolve_args at h
    cases hd : dictGet a d with
    | none =>
      simp only [hd] at h
      simp at h
    | some data =>
      simp only [hd] at h
      cases hr : resolve_args d rest with
      | error e =>
        simp only [hr] at h
        simp at h
      | ok datas =>
        simp only [hr] at h
        simp at h
        rw [← h]
        cases hu : arity_update acc data with
        | error e => simp [arity_args_loop, arity_data_loop, hd, hu]
        | ok acc1 => simp [arity_args_loop, arity_data_loop, hd, hu, ih acc1 datas hr]

theorem arity_args_loop_append_ok (d : List (Nat × DataSourceSpec)) (l1 l2 : List Nat) :
    ∀ acc acc1, arity_args_loop d acc l1 = .ok acc1 →
    arity_args_loop d acc (l1 ++ l2) = arity_args_loop d acc1 l2 := by
  induction l1 with
  | nil =>
    intro acc acc1 h
    simp [arity_args_loop] at h
    rw [← h]
    rfl
  | cons a rest ih =>
    intro acc acc1 h
    unfold arity_args_loop at h
    cases hd : dictGet a d with
    | none =>
      simp only [hd] at h
      simp at h
    | some data =>
      simp only [hd] at h
      cases hu : arity_update acc data with
      | error e =>
        simp only [hu] at h
        simp at h
      | ok acc2 =>
        simp only [hu] at h
        have h2 := ih acc2 acc1 h
        simp [arity_args_loop, hd, hu, h2]

theorem arity_args_loop_append_err (d : List (Nat × DataSourceSpec)) (l1 l2 : List Nat) :
    ∀ acc e, arity_args_loop d acc l1 = .error e →
    arity_args_loop d acc (l1 ++ l2) = .error e := by
  induction l1 with
  | nil =>
    intro acc e h
    simp [arity_args_loop] at h
  | cons a rest ih =>
    intro acc e h
    unfold arity_args_loop at h
    cases hd : dictGet a d with
    | none =>
      simp only [hd] at h
      simp at h
      simp [arity_args_loop, hd, h]
    | some data =>
      simp only [hd] at h
      cases hu : arity_update acc data with
      | error e1 =>
        simp only [hu] at h
        simp at h
        simp [arity_args_loop, hd, hu, h]
      | ok acc2 =>
        simp only [hu] at h
        simp [arity_args_loop, hd, hu, ih acc2 e h]

theorem arity_loop_eq_args (d : List (Nat × DataSourceSpec)) (ntm : List (Nat × List Nat × Module)) :
    ∀ acc, arity_loop d acc ntm = arity_args_loop d acc (callArgs ntm) := by
  induction ntm with
  | nil =>
    intro acc
    rfl
  | cons e rest ih =>
    intro acc
    cases hs : arity_args_loop d acc e.2.1 with
    | error er =>
      simp [arity_loop, callArgs, hs, arity_args_loop_append_err d e.2.1 (callArgs rest) acc er hs]
    | ok acc1 =>
      simp [arity_loop, callArgs, hs,
        arity_args_loop_append_ok d e.2.1 (callArgs rest) acc acc1 hs, ih acc1]

theorem arityPass_eq_data (d : List (Nat × DataSourceSpec)) (ntm : List (Nat × List Nat × Module))
    (uses : List DataSourceSpec) (h : resolve_args d (callArgs ntm) = .ok uses) :
    arityPass d ntm = arity_data_loop [] uses := by
  rw [arityPass, arity_loop_eq_args, arity_args_loop_eq_data d (callArgs ntm) [] uses h]

theorem resolveNode_call_ok (env : Env) (arg_names : List String) (st st1 : ResolveState)
    (tgt : String) (args : List Nat)
    (h : resolveNode env arg_names st (.call_module tgt args) = .ok st1) :
    ∃ m, env.get_module tgt = some m ∧ env.isRemoteModule m = true ∧
      st1 = { node_to_data := st.node_to_data ++ [(st.pos, .wholeModuleOutput m)],
              node_to_module := st.node_to_module ++ [(st.pos, args, m)],
              pos := st.pos + 1 } := by
  simp only [resolveNode] at h
  cases hg : env.get_module tgt with
  | none =>
    simp only [hg] at h
    simp at h
  | some m =>
    simp only [hg] at h
    by_cases hr : env.isRemoteModule m
    · simp [hr] at h
      exact ⟨m, rfl, hr, h.symm⟩
    · simp [hr] at h

theorem resolveNode_getitem_ok (env : Env) (arg_names : List String) (st st1 : ResolveState)
    (arg index : Nat) (h : resolveNode env arg_names st (.getitem arg index) = .ok st1) :
    ∃ m, dictGet arg st.node_to_data = some (.wholeModuleOutput m) ∧
      st1 = { st with
              node_to_data := st.node_to_data ++ [(st.pos, .indexedModuleOutput m index)],
              pos := st.pos + 1 } := by
  simp only [resolveNode] at h
  cases hd : dictGet arg st.node_to_data with
  | none =>
    simp only [hd] at h
    simp at h
  | some data =>
    simp only [hd] at h
    cases data with
    | externalInput i => simp at h
    | wholeModuleOutput m =>
      simp at h
      exact ⟨m, rfl, h.symm⟩
    | indexedModuleOutput m i => simp at h

theorem resolveNode_placeholder_ok (env : Env) (arg_names : List String) (st st1 : ResolveState)
    (tgt : String) (h : resolveNode env arg_names st (.placeholder tgt) = .ok st1) :
    ∃ i, listIndex tgt arg_names = some i ∧
      st1 = { st with
              node_to_data := st.node_to_data ++ [(st.pos, .externalInput i)],
              pos := st.pos + 1 } := by
  simp only [resolveNode] at h
  cases hl : listIndex tgt arg_names with
  | none =>
    simp only [hl] at h
    simp at h
  | some i =>
    simp only [hl] at h
    simp at h
    exact ⟨i, rfl, h.symm⟩

theorem resolveNode_output (env : Env) (arg_names : List String) (st : ResolveState)
    (args : List Nat) :
    resolveNode env arg_names st (.output args) = .ok { st with pos := st.pos + 1 } := rfl

theorem resolveNode_unsupported (env : Env) (arg_names : List String) (st : ResolveState)
    (op : String) :
    resolveNode env arg_names st (.unsupported op) = .error .unsupportedOperation := rfl

theorem resolve_loop_modules (env : Env) (arg_names : List String) (t : List Node) :
    ∀ st st1, resolve_loop env arg_names st t = .ok st1 →
    List.map (fun e => e.2.2) st1.node_to_module =
      List.map (fun e => e.2.2) st.node_to_module ++ callModules env t ∧
    st1.node_to_module.length =
      st.node_to_module.length + (t.filter Node.isModuleCall).length := by
  induction t with
  | nil =>
    intro st st1 h
    simp [resolve_loop] at h
    rw [← h]
    simp [callModules]
  | cons n rest ih =>
    intro st st1 h
    unfold resolve_loop at h
    cases hn : resolveNode env arg_names st n with
    | error e =>
      rw [hn] at h
      simp at h
    | ok st2 =>
      rw [hn] at h
      obtain ⟨ih1, ih2⟩ := ih st2 st1 h
      cases n with
      | call_module tgt args =>
        obtain ⟨m, hm, hrm, hst2⟩ := resolveNode_call_ok env arg_names st st2 tgt args hn
        subst hst2
        constructor
        · rw [ih1]
          simp [callModules, hm, Node.isModuleCall]
        · rw [ih2]
          simp [Node.isModuleCall]
          omega
      | placeholder tgt =>
        obtain ⟨i, _, hst2⟩ := resolveNode_placeholder_ok env arg_names st st2 tgt hn
        subst hst2
        constructor
        · rw [ih1]
          simp [callModules, Node.isModuleCall]
        · rw [ih2]
          simp [Node.isModuleCall]
      | getitem arg index =>
        obtain ⟨m, _, hst2⟩ := resolveNode_getitem_ok env arg_names st st2 arg index hn
        subst hst2
        constructor
        · rw [ih1]
          simp [callModules, Node.isModuleCall]
        · rw [ih2]
          simp [Node.isModuleCall]
      | output args =>
        rw [resolveNode_output] at hn
        have hst2 : st2 = { st with pos := st.pos + 1 } := (Except.ok.inj hn).symm
        subst hst2
        constructor
        · rw [ih1]
          simp [callModules, Node.isModuleCall]
        · rw [ih2]
          simp [Node.isModuleCall]
      | unsupported op =>
        rw [resolveNode_unsupported] at hn
        exact absurd hn (by simp)

theorem resolve_loop_unsupported (env : Env) (arg_names : List String) (op : String)
    (t : List Node) : ∀ st, Node.unsupported op ∈ t →
    ∃ e, resolve_loop env arg_names st t = .error e := by
  induction t with
  | nil =>
    intro st hm
    simp at hm
  | cons n rest ih =>
    intro st hm
    cases hn : resolveNode env arg_names st n with
    | error e => exact ⟨e, by simp [resolve_loop, hn]⟩
    | ok st1 =>
      rcases List.mem_cons.mp hm with hm1 | hm1
      · subst hm1
        rw [resolveNode_unsupported] at hn
        exact absurd hn (by simp)
      · obtain ⟨e, he⟩ := ih st1 hm1
        exact ⟨e, by simp [resolve_loop, hn, he]⟩

theorem resolve_loop_append_ok (env : Env) (arg_names : List String) (t1 t2 : List Node) :
    ∀ st st1, resolve_loop env arg_names st t1 = .ok st1 →
    resolve_loop env arg_names st (t1 ++ t2) = resolve_loop env arg_names st1 t2 := by
  induction t1 with
  | nil =>
    intro st st1 h
    simp [resolve_loop] at h
    rw [← h]
    rfl
  | cons n rest ih =>
    intro st st1 h
    unfold resolve_loop at h
    cases hn : resolveNode env arg_names st n with
    | error e =>
      rw [hn] at h
      simp at h
    | ok st2 =>
      rw [hn] at h
      simp [resolve_loop, hn, ih st2 st1 h]

theorem resolve_loop_no_indexed (env : Env) (arg_names : List String) (t : List Node)
    (hno : ∀ n ∈ t, n.isGetitem = false) :
    ∀ st st1, resolve_loop env arg_names st t = .ok st1 →
    (∀ p ∈ st.node_to_data, p.2.isIndexed = false) →
    ∀ p ∈ st1.node_to_data, p.2.isIndexed = false := by
  induction t with
  | nil =>
    intro st st1 h hd
    simp [resolve_loop] at h
    rw [← h]
    exact hd
  | cons n rest ih =>
    intro st st1 h hd
    have hno1 : ∀ v ∈ rest, Node.isGetitem v = false :=
      fun v hv => hno v (List.mem_cons_of_mem n hv)
    unfold resolve_loop at h
    cases hn : resolveNode env arg_names st n with
    | error e =>
      rw [hn] at h
      simp at h
    | ok st2 =>
      rw [hn] at h
      cases n with
      | call_module tgt args =>
        obtain ⟨m, _, _, hst2⟩ := resolveNode_call_ok env arg_names st st2 tgt args hn
        subst hst2
        refine ih hno1 _ st1 h ?_
        intro p hp
        rcases List.mem_append.mp hp with h1 | h1
        · exact hd p h1
        · simp at h1
          rw [h1]
          rfl
      | placeholder tgt =>
        obtain ⟨i, _, hst2⟩ := resolveNode_placeholder_ok env arg_names st st2 tgt hn
        subst hst2
        refine ih hno1 _ st1 h ?_
        intro p hp
        rcases List.mem_append.mp hp with h1 | h1
        · exact hd p h1
        · simp at h1
          rw [h1]
          rfl
      | getitem arg index =>
        exact absurd (hno _ (List.mem_cons_self _ _)) (by simp [Node.isGetitem])
      | output args =>
        rw [resolveNode_output] at hn
        have hst2 : st2 = { st with pos := st.pos + 1 } := (Except.ok.inj hn).symm
        subst hst2
        exact ih hno1 _ st1 h hd
      | unsupported op =>
        rw [resolveNode_unsupported] at hn
        exact absurd hn (by simp)

theorem arity_args_loop_all_none (d : List (Nat × DataSourceSpec))
    (hd : ∀ p ∈ d, p.2.isIndexed = false) (args : List Nat) :
    ∀ acc final, arity_args_loop d acc args = .ok final →
    (∀ p ∈ acc, p.2 = none) → ∀ p ∈ final, p.2 = none := by
  induction args with
  | nil =>
    intro acc final h ha
    simp [arity_args_loop] at h
    rw [← h]
    exact ha
  | cons a rest ih =>
    intro acc final h ha
    unfold arity_args_loop at h
    cases hg : dictGet a d with
    | none =>
      simp only [hg] at h
      simp at h
    | some data =>
      simp only [hg] at h
      cases hu : arity_update acc data with
      | error e =>
        simp only [hu] at h
        simp at h
      | ok acc1 =>
        simp only [hu] at h
        refine ih acc1 final h ?_
        cases data with
        | externalInput i =>
          rw [arity_update_external] at hu
          intro p hp
          exact ha p ((Except.ok.inj hu) ▸ hp)
        | wholeModuleOutput m =>
          rw [arity_update_whole_ok acc acc1 m hu]
          intro p hp
          rcases mem_dictInsert m none acc p hp with h1 | h1
          · exact h1
          · exact ha p h1
        | indexedModuleOutput m i =>
          have := hd (a, .indexedModuleOutput m i) (dictGet_mem a _ d hg)
          simp [DataSourceSpec.isIndexed] at this

theorem all_none_getD (arity : List (Module × Option Nat))
    (h : ∀ p ∈ arity, p.2 = none) (m : Module) : (dictGet m arity).getD none = none := by
  cases hg : dictGet m arity with
  | none => rfl
  | some v =>
    have := h (m, v) (dictGet_mem m v arity hg)
    simp at this
    simp [this]

theorem assemble_loop_props (d : List (Nat × DataSourceSpec)) (arity : List (Module × Option Nat))
    (ntm : List (Nat × List Nat × Module)) :
    ∀ g layers, assemble_loop d arity g ntm = .ok layers →
    List.map Layer.module layers =
      List.map Layer.module g ++ List.map (fun e => e.2.2) ntm ∧
    ∀ l ∈ layers, l ∈ g ∨ l.num_outputs = (dictGet l.module arity).getD none := by
  induction ntm with
  | nil =>
    intro g layers h
    simp [assemble_loop] at h
    rw [← h]
    exact ⟨by simp, fun l hl => Or.inl hl⟩
  | cons e rest ih =>
    intro g layers h
    unfold assemble_loop at h
    cases hr : resolve_args d e.2.1 with
    | error er =>
      rw [hr] at h
      simp at h
    | ok inputs =>
      rw [hr] at h
      obtain ⟨ih1, ih2⟩ := ih _ layers h
      constructor
      · rw [ih1]
        simp [add_layer]
      · intro l hl
        rcases ih2 l hl with hg | hprop
        · rcases List.mem_append.mp hg with h1 | h1
          · exact Or.inl h1
          · simp at h1
            rw [h1]
            exact Or.inr rfl
        · exact Or.inr hprop

theorem create_graph_resolve_err (env : Env) (arg_names : List String) (trace : List Node)
    (e : GraphError) (h : resolvePass env arg_names trace = .error e) :
    create_graph env arg_names trace = .error e := by
  simp [create_graph, h]

theorem create_graph_arity_err (env : Env) (arg_names : List String) (trace : List Node)
    (st : ResolveState) (e : GraphError) (hres : resolvePass env arg_names trace = .ok st)
    (h : arityPass st.node_to_data st.node_to_module = .error e) :
    create_graph env arg_names trace = .error e := by
  simp [create_graph, hres, h]

theorem create_graph_ok_parts (env : Env) (arg_names : List String) (trace : List Node)
    (layers : List Layer) (h : create_graph env arg_names trace = .ok layers) :
    ∃ st arity, resolvePass env arg_names trace = .ok st ∧
      arityPass st.node_to_data st.node_to_module = .ok arity ∧
      assemble_loop st.node_to_data arity [] st.node_to_module = .ok layers := by
  unfold create_graph at h
  cases hres : resolvePass env arg_names trace with
  | error e =>
    rw [hres] at h
    simp at h
  | ok st =>
    rw [hres] at h
    simp only at h
    cases ha : arityPass st.node_to_data st.node_to_module with
    | error e =>
      rw [ha] at h
      simp at h
    | ok arity =>
      rw [ha] at h
      exact ⟨st, arity, rfl, ha, h⟩

/-- C1: whenever a module identity `m` is consumed both as a whole value and
via indexed selection among the resolved arguments of the recorded module-call
nodes, `create_graph` fails with `MixedOutputAccess`, in whichever order the
two usages appear in the trace. -/
theorem create_graph_mixed_access (env : Env) (arg_names : List String) (trace : List Node)
    (st : ResolveState) (uses : List DataSourceSpec) (m : Module) (i : Nat)
    (hres : resolvePass env arg_names trace = .ok st)
    (hu : resolve_args st.node_to_data (callArgs st.node_to_module) = .ok uses)
    (hw : DataSourceSpec.wholeModuleOutput m ∈ uses)
    (hi : DataSourceSpec.indexedModuleOutput m i ∈ uses) :
    create_graph env arg_names trace = .error .mixedOutputAccess := by
  have ha : arityPass st.node_to_data st.node_to_module = .error .mixedOutputAccess := by
    rw [arityPass_eq_data st.node_to_data st.node_to_module uses hu]
    exact arity_data_loop_mixed uses [] m i hw hi
  exact create_graph_arity_err env arg_names trace st .mixedOutputAccess hres ha

/-- C2: on success the graph has exactly one layer per `call_module` node of
the trace, and the layers name the called modules in trace order. -/
theorem create_graph_layer_order (env : Env) (arg_names : List String) (trace : List Node)
    (layers : List Layer) (h : create_graph env arg_names trace = .ok layers) :
    layers.length = (trace.filter Node.isModuleCall).length ∧
    List.map Layer.module layers = callModules env trace := by
  obtain ⟨st, arity, hres, _, hasm⟩ := create_graph_ok_parts env arg_names trace layers h
  obtain ⟨h1, _⟩ := assemble_loop_props st.node_to_data arity st.node_to_module [] layers hasm
  obtain ⟨h3, h4⟩ := resolve_loop_modules env arg_names trace ⟨[], [], 0⟩ st hres
  constructor
  · have h5 : layers.length = st.node_to_module.length := by
      have h6 := congrArg List.length h1
      simpa using h6
    rw [h5]
    simpa using h4
  · rw [h1]
    simpa using h3

/-- C3: when module `m`'s result is never consumed whole and is selected at a
nonempty list of indices among the module-call arguments, the inferred arity
for `m` is one plus the maximum selection index observed (gaps tolerated). -/
theorem arityPass_count_inference (d : List (Nat × DataSourceSpec))
    (ntm : List (Nat × List Nat × Module)) (uses : List DataSourceSpec) (m : Module)
    (arity : List (Module × Option Nat))
    (hu : resolve_args d (callArgs ntm) = .ok uses)
    (hw : DataSourceSpec.wholeModuleOutput m ∉ uses)
    (hs : selIdxs m uses ≠ [])
    (hok : arityPass d ntm = .ok arity) :
    dictGet m arity = some (some (listMax (selIdxs m uses) + 1)) := by
  rw [arityPass_eq_data d ntm uses hu] at hok
  have h1 := arity_data_loop_counts uses [] arity m none hok hw (by rfl)
  rw [arityOfIdxs_none_of_ne (selIdxs m uses) hs] at h1
  simpa using h1

/-- C4: a placeholder node whose declared name sits at (first) position `i` of
the caller-supplied input-name list resolves to `ExternalInput i`; a
placeholder whose name is absent from the list makes the transformation fail
with `UnknownInput`. -/
theorem resolveNode_placeholder_resolution (env : Env) (arg_names : List String)
    (st : ResolveState) (name : String) :
    (∀ i, arg_names.get? i = some name → (∀ j, j < i → arg_names.get? j ≠ some name) →
      resolveNode env arg_names st (.placeholder name) =
        .ok { st with
              node_to_data := st.node_to_data ++ [(st.pos, .externalInput i)],
              pos := st.pos + 1 }) ∧
    (name ∉ arg_names →
      resolveNode env arg_names st (.placeholder name) = .error .unknownInput) := by
  constructor
  · intro i h1 h2
    simp only [resolveNode, listIndex_eq_some name arg_names i h1 h2]
  · intro h
    simp only [resolveNode, listIndex_eq_none name arg_names h]

/-- C5: a trace without selection nodes yields a graph all of whose layers
have the default single (`none`) output arity. -/
theorem create_graph_no_selection_single (env : Env) (arg_names : List String)
    (trace : List Node) (layers : List Layer)
    (hno : ∀ n ∈ trace, n.isGetitem = false)
    (h : create_graph env arg_names trace = .ok layers) :
    ∀ l ∈ layers, l.num_outputs = none := by
  obtain ⟨st, arity, hres, ha, hasm⟩ := create_graph_ok_parts env arg_names trace layers h
  have hd : ∀ p ∈ st.node_to_data, p.2.isIndexed = false :=
    resolve_loop_no_indexed env arg_names trace hno ⟨[], [], 0⟩ st hres (by simp)
  have hargs : arity_args_loop st.node_to_data [] (callArgs st.node_to_module) = .ok arity := by
    rw [← arity_loop_eq_args st.node_to_data st.node_to_module []]
    exact ha
  have hall := arity_args_loop_all_none st.node_to_data hd (callArgs st.node_to_module)
    [] arity hargs (by simp)
  obtain ⟨_, h2⟩ := assemble_loop_props st.node_to_data arity st.node_to_module [] layers hasm
  intro l hl
  rcases h2 l hl with hg | hprop
  · simp at hg
  · rw [hprop, all_none_getD arity hall l.module]

/-- C6: a selection node whose first argument resolved to the whole output of
module `m` resolves to `IndexedModuleOutput m index`; a selection node whose
first argument resolved to anything else fails with `SelectionOnNonModule`. -/
theorem resolveNode_selection (env : Env) (arg_names : List String) (st : ResolveState)
    (arg index : Nat) :
    (∀ m, dictGet arg st.node_to_data = some (.wholeModuleOutput m) →
      resolveNode env arg_names st (.getitem arg index) =
        .ok { st with
              node_to_data := st.node_to_data ++ [(st.pos, .indexedModuleOutput m index)],
              pos := st.pos + 1 }) ∧
    (∀ d, dictGet arg st.node_to_data = some d → (∀ m, d ≠ .wholeModuleOutput m) →
      resolveNode env arg_names st (.getitem arg index) = .error .selectionOnNonModule) := by
  constructor
  · intro m h1
    simp only [resolveNode, h1]
  · intro d h1 h2
    cases d with
    | externalInput j => simp only [resolveNode, h1]
    | wholeModuleOutput m => exact absurd rfl (h2 m)
    | indexedModuleOutput m j => simp only [resolveNode, h1]

/-- C7: a trace containing a node of an unrecognized kind makes the
transformation fail: with `UnsupportedOperation` once the nodes before it have
resolved, and in every case with some error, so no graph is produced. -/
theorem create_graph_unsupported_kind (env : Env) (arg_names : List String) :
    (∀ t1 t2 op st, resolvePass env arg_names t1 = .ok st →
      create_graph env arg_names (t1 ++ Node.unsupported op :: t2) =
        .error .unsupportedOperation) ∧
    (∀ trace op, Node.unsupported op ∈ trace →
      ∃ e, create_graph env arg_names trace = .error e) := by
  constructor
  · intro t1 t2 op st h
    have hres : resolvePass env arg_names (t1 ++ Node.unsupported op :: t2) =
        .error .unsupportedOperation := by
      unfold resolvePass
      rw [resolve_loop_append_ok env arg_names t1 (Node.unsupported op :: t2) ⟨[], [], 0⟩ st h]
      simp [resolve_loop, resolveNode_unsupported]
    exact create_graph_resolve_err env arg_names _ .unsupportedOperation hres
  · intro trace op hm
    obtain ⟨e, he⟩ := resolve_loop_unsupported env arg_names op trace ⟨[], [], 0⟩ hm
    exact ⟨e, create_graph_resolve_err env arg_names trace e he⟩

/-- C8: a module whose result is never referenced (whole or indexed) among the
arguments of the recorded module-call nodes gets the default `none` (single)
arity on every one of its layers. -/
theorem create_graph_unreferenced_default (env : Env) (arg_names : List String)
    (trace : List Node) (st : ResolveState) (uses : List DataSourceSpec) (m : Module)
    (layers : List Layer)
    (hres : resolvePass env arg_names trace = .ok st)
    (hu : resolve_args st.node_to_data (callArgs st.node_to_module) = .ok uses)
    (hm : ∀ u ∈ uses, u.isFrom m = false)
    (h : create_graph env arg_names trace = .ok layers) :
    ∀ l ∈ layers, l.module = m → l.num_outputs = none := by
  obtain ⟨st1, arity, hres1, ha, hasm⟩ := create_graph_ok_parts env arg_names trace layers h
  rw [hres] at hres1
  have hst : st = st1 := Except.ok.inj hres1
  subst hst
  have hdl : arity_data_loop [] uses = .ok arity := by
    rw [← arityPass_eq_data st.node_to_data st.node_to_module uses hu]
    exact ha
  have hnone : dictGet m arity = none := by
    rw [arity_data_loop_not_from uses [] arity m hdl hm]
    rfl
  obtain ⟨_, h2⟩ := assemble_loop_props st.node_to_data arity st.node_to_module [] layers hasm
  intro l hl hlm
  rcases h2 l hl with hg | hprop
  · simp at hg
  · rw [hprop, hlm, hnone]
    rfl

/-- C9: `_call_trace` always hands back the original `RemoteModule`
introspection attributes, and when the underlying trace fails the error
propagates unchanged while the attributes are still restored. -/
theorem call_trace_restores {α β ε : Type} (nn rm : ModuleIntrospection α)
    (f : ModuleIntrospection α → Except ε β) :
    (_call_trace nn rm f).2 = rm ∧
    (∀ e, f { named_modules := nn.named_modules, named_children := nn.named_children } =
        .error e → _call_trace nn rm f = (.error e, rm)) := by
  constructor
  · rfl
  · intro e he
    simp [_call_trace, he]

/-- C10: when module `m`'s result is index-selected somewhere in the trace but
no use of `m` (whole or indexed) ever reaches a module-call argument, `m` gets
no entry in the arity map and every layer of `m` keeps the default `none`
(single) arity. -/
theorem create_graph_selection_unconsumed (env : Env) (arg_names : List String)
    (trace : List Node) (st : ResolveState) (uses : List DataSourceSpec) (m : Module)
    (p i : Nat) (arity : List (Module × Option Nat)) (layers : List Layer)
    (hres : resolvePass env arg_names trace = .ok st)
    (hsel : (p, DataSourceSpec.indexedModuleOutput m i) ∈ st.node_to_data)
    (hu : resolve_args st.node_to_data (callArgs st.node_to_module) = .ok uses)
    (hm : ∀ u ∈ uses, u.isFrom m = false)
    (ha : arityPass st.node_to_data st.node_to_module = .ok arity)
    (h : create_graph env arg_names trace = .ok layers) :
    dictGet m arity = none ∧ ∀ l ∈ layers, l.module = m → l.num_outputs = none := by
  obtain ⟨st1, arity1, hres1, ha1, hasm⟩ := create_graph_ok_parts env arg_names trace layers h
  rw [hres] at hres1
  have hst : st = st1 := Except.ok.inj hres1
  subst hst
  rw [ha] at ha1
  have harity : arity = arity1 := Except.ok.inj ha1
  subst harity
  have hdl : arity_data_loop [] uses = .ok arity := by
    rw [← arityPass_eq_data st.node_to_data st.node_to_module uses hu]
    exact ha
  have hnone : dictGet m arity = none := by
    rw [arity_data_loop_not_from uses [] arity m hdl hm]
    rfl
  refine ⟨hnone, ?_⟩
  obtain ⟨_, h2⟩ := assemble_loop_props st.node_to_data arity st.node_to_module [] layers hasm
  intro l hl hlm
  rcases h2 l hl with hg | hprop
  · simp at hg
  · rw [hprop, hlm, hnone]
    rfl

/-- Witness for C1: the mixed trace (whole use first) fails with
`MixedOutputAccess`. -/
theorem create_graph_mixed_access_witness :
    create_graph envAB ["x"] traceMixed = .error .mixedOutputAccess :=
  create_graph_mixed_access envAB ["x"] traceMixed
    ⟨[(0, .externalInput 0), (1, .wholeModuleOutput 0), (2, .indexedModuleOutput 0 0),
      (3, .wholeModuleOutput 1), (4, .wholeModuleOutput 2)],
     [(1, [0], 0), (3, [1], 1), (4, [2], 2)], 6⟩
    [.externalInput 0, .wholeModuleOutput 0, .indexedModuleOutput 0 0]
    0 0 rfl rfl (by decide) (by decide)

/-- Witness for C2: the worked example yields two layers, for `A` then `B`. -/
theorem create_graph_layer_order_witness :
    [({ module := 0, inputs := [.externalInput 0], num_outputs := some 2 } : Layer),
     { module := 1, inputs := [.indexedModuleOutput 0 0, .indexedModuleOutput 0 1],
       num_outputs := none }].length = (traceEx.filter Node.isModuleCall).length ∧
    List.map Layer.module
      [({ module := 0, inputs := [.externalInput 0], num_outputs := some 2 } : Layer),
       { module := 1, inputs := [.indexedModuleOutput 0 0, .indexedModuleOutput 0 1],
         num_outputs := none }] = callModules envAB traceEx :=
  create_graph_layer_order envAB ["x"] traceEx _ rfl

/-- Witness for C3: selection at indices 0 and 1 infers count 2; selection at
indices 0 and 2 infers count 3. -/
theorem arityPass_count_inference_witness :
    dictGet 0 [(0, some 2)] = some (some 2) ∧ dictGet 0 [(0, some 3)] = some (some 3) :=
  ⟨arityPass_count_inference
      [(0, .externalInput 0), (1, .wholeModuleOutput 0), (2, .indexedModuleOutput 0 0),
       (3, .indexedModuleOutput 0 1), (4, .wholeModuleOutput 1)]
      [(1, [0], 0), (4, [2, 3], 1)]
      [.externalInput 0, .indexedModuleOutput 0 0, .indexedModuleOutput 0 1]
      0 [(0, some 2)] rfl (by decide) (by decide) rfl,
   arityPass_count_inference
      [(0, .externalInput 0), (1, .wholeModuleOutput 0), (2, .indexedModuleOutput 0 0),
       (3, .indexedModuleOutput 0 2), (4, .wholeModuleOutput 1)]
      [(1, [0], 0), (4, [2, 3], 1)]
      [.externalInput 0, .indexedModuleOutput 0 0, .indexedModuleOutput 0 2]
      0 [(0, some 3)] rfl (by decide) (by decide) rfl⟩

/-- Witness for C4: with declared inputs `x, y`, a placeholder named `y`
resolves to external input 1, and a placeholder named `z` fails with
`UnknownInput`. -/
theorem resolveNode_placeholder_resolution_witness :
    resolveNode envAB ["x", "y"] ⟨[], [], 0⟩ (.placeholder "y") =
      .ok ⟨[(0, .externalInput 1)], [], 1⟩ ∧
    resolveNode envAB ["x", "y"] ⟨[], [], 0⟩ (.placeholder "z") = .error .unknownInput :=
  ⟨(resolveNode_placeholder_resolution envAB ["x", "y"] ⟨[], [], 0⟩ "y").1 1 (by decide)
      (by
        intro j hj
        have hj0 : j = 0 := by omega
        subst hj0
        decide),
   (resolveNode_placeholder_resolution envAB ["x", "y"] ⟨[], [], 0⟩ "z").2 (by decide)⟩

/-- Witness for C5: a two-call trace without selections gets `none` arity on
both layers. -/
theorem create_graph_no_selection_single_witness :
    Layer.num_outputs { module := 0, inputs := [.externalInput 0], num_outputs := none } = none ∧
    Layer.num_outputs { module := 1, inputs := [.wholeModuleOutput 0], num_outputs := none } = none :=
  ⟨create_graph_no_selection_single envAB ["x"] traceNoSel
      [{ module := 0, inputs := [.externalInput 0], num_outputs := none },
       { module := 1, inputs := [.wholeModuleOutput 0], num_outputs := none }]
      (by decide) rfl
      { module := 0, inputs := [.externalInput 0], num_outputs := none } (by decide),
   create_graph_no_selection_single envAB ["x"] traceNoSel
      [{ module := 0, inputs := [.externalInput 0], num_outputs := none },
       { module := 1, inputs := [.wholeModuleOutput 0], num_outputs := none }]
      (by decide) rfl
      { module := 1, inputs := [.wholeModuleOutput 0], num_outputs := none } (by decide)⟩

/-- Witness for C6: selecting element 2 of a whole-module value succeeds;
selecting from an external input fails with `SelectionOnNonModule`. -/
theorem resolveNode_selection_witness :
    resolveNode envAB ["x"] ⟨[(0, .wholeModuleOutput 5)], [], 1⟩ (.getitem 0 2) =
      .ok ⟨[(0, .wholeModuleOutput 5), (1, .indexedModuleOutput 5 2)], [], 2⟩ ∧
    resolveNode envAB ["x"] ⟨[(0, .externalInput 0)], [], 1⟩ (.getitem 0 2) =
      .error .selectionOnNonModule :=
  ⟨(resolveNode_selection envAB ["x"] ⟨[(0, .wholeModuleOutput 5)], [], 1⟩ 0 2).1 5 rfl,
   (resolveNode_selection envAB ["x"] ⟨[(0, .externalInput 0)], [], 1⟩ 0 2).2
      (.externalInput 0) rfl (by intro m hcon; cases hcon)⟩

/-- Witness for C7: a trace whose second node has kind `call_method` fails
with `UnsupportedOperation`. -/
theorem create_graph_unsupported_kind_witness :
    create_graph envAB ["x"] [Node.placeholder "x", Node.unsupported "call_method"] =
      .error .unsupportedOperation ∧
    ∃ e, create_graph envAB ["x"] [Node.placeholder "x", Node.unsupported "call_method"] =
      .error e :=
  ⟨(create_graph_unsupported_kind envAB ["x"]).1 [Node.placeholder "x"] [] "call_method"
      ⟨[(0, .externalInput 0)], [], 1⟩ rfl,
   (create_graph_unsupported_kind envAB ["x"]).2
      [Node.placeholder "x", Node.unsupported "call_method"] "call_method" (by decide)⟩

/-- Witness for C8: module `B` (identity 1) of the selection-free trace is
never referenced by another call and its layer keeps the `none` arity. -/
theorem create_graph_unreferenced_default_witness :
    Layer.num_outputs { module := 1, inputs := [.wholeModuleOutput 0], num_outputs := none } =
      none :=
  create_graph_unreferenced_default envAB ["x"] traceNoSel
    ⟨[(0, .externalInput 0), (1, .wholeModuleOutput 0), (2, .wholeModuleOutput 1)],
     [(1, [0], 0), (2, [1], 1)], 4⟩
    [.externalInput 0, .wholeModuleOutput 0] 1
    [{ module := 0, inputs := [.externalInput 0], num_outputs := none },
     { module := 1, inputs := [.wholeModuleOutput 0], num_outputs := none }]
    rfl rfl (by decide) rfl
    { module := 1, inputs := [.wholeModuleOutput 0], num_outputs := none } (by decide) rfl

/-- Witness for C9: a failing trace call propagates its error and the two
overridden attributes come back with their original values. -/
theorem call_trace_restores_witness :
    _call_trace (⟨0, 0⟩ : ModuleIntrospection Nat) ⟨1, 2⟩
      (fun _ => (.error 7 : Except Nat Nat)) = (.error 7, ⟨1, 2⟩) :=
  (call_trace_restores ⟨0, 0⟩ ⟨1, 2⟩ (fun _ => (.error 7 : Except Nat Nat))).2 7 rfl

/-- Witness for C10: in the trace whose only selection feeds the output node,
module `A` (identity 0) has no arity-map entry and its layer arity is `none`. -/
theorem create_graph_selection_unconsumed_witness :
    dictGet 0 ([] : List (Module × Option Nat)) = none ∧
    ∀ l ∈ [({ module := 0, inputs := [.externalInput 0], num_outputs := none } : Layer)],
      Layer.module l = 0 → Layer.num_outputs l = none :=
  create_graph_selection_unconsumed envAB ["x"] traceSelOnly
    ⟨[(0, .externalInput 0), (1, .wholeModuleOutput 0), (2, .indexedModuleOutput 0 0)],
     [(1, [0], 0)], 4⟩
    [.externalInput 0] 0 2 0 [] _ rfl (by decide) rfl (by decide) rfl rfl

end DistributedPipeline
